import Mathlib

/-!
Verification of the turn-taking orchestrator and round state machine of the
ai-mafia repository (src/orchestrator.py, src/game_engine.py).

The Python code is shallowly embedded: each mutable method becomes a pure
function taking and returning explicit state.  LLM calls made through
`api_handler.generate_response` are modelled by an `Oracle` record of stub
functions returning `Except Unit (Option String)`: `.error ()` models a raised
exception, `.ok none` models a `None` return, and `.ok (some s)` models the
text `s`.  Python's `random.choice` is modelled by an injected `Nat` seed used
as an index modulo the candidate-list length.
-/

namespace Mafia

/-- Source `str.lower()` : lower-case every character. -/
def lowerStr (s : String) : String := ⟨s.data.map Char.toLower⟩

/-- Source `str.strip(chars)` : drop the given characters from both ends. -/
def stripChars (cs : List Char) (s : String) : String :=
  ⟨((s.data.dropWhile (fun c => cs.contains c)).reverse.dropWhile
      (fun c => cs.contains c)).reverse⟩

/-- Python's `needle in hay` on strings: substring containment. -/
def isSubstr (needle hay : String) : Bool := decide (needle.data <:+: hay.data)

/-- Source `str.strip()` : drop whitespace from both ends. -/
def pyStrip (s : String) : String :=
  ⟨((s.data.dropWhile Char.isWhitespace).reverse.dropWhile Char.isWhitespace).reverse⟩

/-- Python's `l[-n:]` : the last `n` elements. -/
def lastN (n : Nat) (l : List α) : List α := l.drop (l.length - n)

/-- Assoc-list read with a default, modelling `d.get(k, default)` /
`d[k]` after initialisation. -/
def aget (m : List (String × Nat)) (k : String) : Nat :=
  (List.lookup k m).getD 0

/-- Assoc-list write modelling `d[k] = v` on an insertion-ordered dict:
updates the first binding in place, else appends. -/
def aset (m : List (String × β)) (k : String) (v : β) : List (String × β) :=
  match m with
  | [] => [(k, v)]
  | (k', v') :: rest => if k' = k then (k, v) :: rest else (k', v') :: aset rest k v

/-- Read of the question queue: `d.get(k, [])`. -/
def qget (m : List (String × List String)) (k : String) : List String :=
  (List.lookup k m).getD []

/-- Model of `list(set(l))`: the distinct elements of `l` (order is
irrelevant to the source, which only takes length, membership and counts). -/
def uniqueList : List String → List String
  | [] => []
  | x :: xs => if x ∈ uniqueList xs then uniqueList xs else x :: uniqueList xs

/-- A conversation message: `{agent, content, is_system}` (the timestamp is
never read by the orchestrator or the round machine). -/
structure Msg where
  agent : String
  content : String
  isSystem : Bool
deriving DecidableEq, Repr

/-- The fields of `Agent` the orchestrator and round machine read. -/
structure Agent where
  name : String
  role : String
deriving DecidableEq, Repr

/-- Source `Orchestrator.__init__` mutable state. -/
structure OrchState where
  agentPatience : List (String × Nat)
  questionQueue : List (String × List String)
  lastPingpongMediator : Option String
  forceDeflectionFrom : List String
deriving DecidableEq, Repr

/-- Stubs for the three LLM classification queries the orchestrator makes.
Each receives the data its prompt is built from and returns the raw response:
`.error ()` = exception raised, `.ok none` = `None` returned. -/
structure Oracle where
  extractQ : String → List String → Except Unit (Option String)
  findAcc : String → List String → Except Unit (Option String)
  isEcho : List Msg → Except Unit (Option String)

/-- Source `PATIENCE_THRESHOLD` (source: `self.patience_threshold = 8`). -/
def patienceThreshold : Nat := 8

/-- Source `[a for a in agents if a.name not in eliminated_agents]`. -/
def activeAgents (agents : List Agent) (eliminated : List String) : List Agent :=
  agents.filter (fun a => decide (a.name ∉ eliminated))

/-- Source `if agent.name not in self.agent_patience: self.agent_patience[agent.name] = 0`. -/
def patienceInit (m : List (String × Nat)) (a : Agent) : List (String × Nat) :=
  if (List.lookup a.name m).isSome then m else m ++ [(a.name, 0)]

/-- The per-agent body of `_update_patience`'s increment loop: reset the
last speaker `s` to 0, add 1 to everyone else. -/
def patienceStep (s : String) (m : List (String × Nat)) (a : Agent) : List (String × Nat) :=
  if decide (a.name = s) then aset m a.name 0 else aset m a.name (aget m a.name + 1)

/-- Source `Orchestrator._update_patience` acting on the patience map: initialise
missing counters to 0, then reset the last non-system speaker to 0 and
increment everyone else by 1 (per call, on the full history). -/
def updatePatience (pm : List (String × Nat)) (active : List Agent)
    (hist : List Msg) : List (String × Nat) :=
  let pm1 := active.foldl patienceInit pm
  match (hist.filter (fun m => !m.isSystem)).getLast? with
  | none => pm1
  | some lm => active.foldl (patienceStep lm.agent) pm1

/-- Source `Orchestrator._max_consecutive_speaker` inner loop. -/
def maxConsecAux : String → Nat → Nat → List String → Nat
  | _, _, best, [] => best
  | prev, cur, best, x :: xs =>
    if x = prev then maxConsecAux x (cur + 1) (max best (cur + 1)) xs
    else maxConsecAux x 1 best xs

/-- Source `Orchestrator._max_consecutive_speaker`. -/
def maxConsecutiveSpeaker : List String → Nat
  | [] => 0
  | x :: xs => maxConsecAux x 1 1 xs

/-- Source `Orchestrator._detect_pingpong`: on the last 4 messages, exactly 2
distinct speakers, each speaking exactly twice, with no 2-in-a-row run. -/
def detectPingpong (recent : List Msg) (active : List Agent) : Option (List Agent) :=
  if recent.length < 4 then none
  else
    if (uniqueList ((lastN 4 recent).map (·.agent))).length = 2 then
      if (uniqueList ((lastN 4 recent).map (·.agent))).all
          (fun s => decide (((lastN 4 recent).map (·.agent)).count s = 2)) then
        if maxConsecutiveSpeaker ((lastN 4 recent).map (·.agent)) ≥ 2 then none
        else
          if (active.filter (fun ag =>
              decide (ag.name ∈ uniqueList ((lastN 4 recent).map (·.agent))))).length = 2 then
            some (active.filter (fun ag =>
              decide (ag.name ∈ uniqueList ((lastN 4 recent).map (·.agent)))))
          else none
      else none
    else none

/-- Source `Orchestrator._pick_random` with the injected random index. -/
def pickRandom (rng : Nat) (l : List Agent) : Option Agent :=
  l[rng % l.length]?

/-- Source `Orchestrator._pick_mediator`: a random active agent not in the pair. -/
def pickMediator (rng : Nat) (active pair : List Agent) : Option Agent :=
  pickRandom rng (active.filter (fun a => decide (a ∉ pair)))

/-- Source `Orchestrator._pick_by_patience`: Python `max(agents, key=patience)`,
which returns the FIRST agent attaining the maximum. -/
def pickByPatience (pm : List (String × Nat)) (l : List Agent) : Option Agent :=
  match l with
  | [] => none
  | x :: xs => some (xs.foldl (fun best a => if aget pm a.name > aget pm best.name then a else best) x)

/-- Source `Orchestrator._find_impatient_agent`: first active agent at or above the
threshold, in list order. -/
def findImpatient (pm : List (String × Nat)) (active : List Agent) : Option Agent :=
  active.find? (fun a => decide (aget pm a.name ≥ patienceThreshold))

/-- Source `Orchestrator._get_quiet_agents`. -/
def quietAgents (agents : List Agent) (recent : List Msg) : List Agent :=
  let speakers := (lastN 5 recent).map (·.agent)
  agents.filter (fun a => decide (a.name ∉ speakers))

/-- Source `Orchestrator._simple_echo_detection`: deterministic fallback — at least
2 of the 5 fixed keywords each appear in at least 3 of the last 4 messages. -/
def simpleEchoDetection (recent : List Msg) : Bool :=
  if recent.length < 4 then false
  else
    let contents := (lastN 4 recent).map (fun m => lowerStr m.content)
    let commonWords := ["consensus", "deflecting", "suspicious", "evasive", "agree"]
    decide (commonWords.countP
      (fun w => decide (contents.countP (fun c => isSubstr w c) ≥ 3)) ≥ 2)

/-- Source `Orchestrator._is_echo_chamber`: LLM yes/no; a raised exception falls
back to the local heuristic, a `None` (or empty) response yields `False`. -/
def isEchoChamber (o : Oracle) (recent : List Msg) : Bool :=
  if recent.length < 4 then false
  else
    match o.isEcho (lastN 4 recent) with
    | .error _ => simpleEchoDetection recent
    | .ok none => false
    | .ok (some r) =>
      if decide (r = "") then false
      else decide (lowerStr (pyStrip r) = "yes")

/-- Source `Orchestrator._extract_questions`: names of active agents occurring
(lower-cased, as substrings) in the response; errors and `"none"` give `[]`. -/
def extractQuestions (o : Oracle) (content : String) (active : List Agent) : List String :=
  match o.extractQ content (active.map (·.name)) with
  | .error _ => []
  | .ok none => []
  | .ok (some r) =>
    if decide (r = "") then []
    else
      let r' := lowerStr (pyStrip r)
      if decide (r' = "none") then []
      else (active.filter (fun a => isSubstr (lowerStr a.name) r')).map (·.name)

/-- Source `Orchestrator._find_accused`: fast pre-filter (some active name occurs in
the message), then the LLM answer matched exactly against active names. -/
def findAccused (o : Oracle) (content : String) (active : List Agent) : Option Agent :=
  if !(active.any (fun a => isSubstr (lowerStr a.name) (lowerStr content))) then none
  else
    match o.findAcc content (active.map (·.name)) with
    | .error _ => none
    | .ok none => none
    | .ok (some r) =>
      if decide (r = "") then none
      else
        active.find? (fun a => decide (lowerStr a.name =
          lowerStr (stripChars [Char.ofNat 39] (stripChars [Char.ofNat 34] (pyStrip r)))))

/-- Source `Orchestrator._update_question_queue` driven by `_extract_questions`. -/
def updateQuestionQueue (st : OrchState) (o : Oracle) (lm : Msg)
    (active : List Agent) : OrchState :=
  let questioned := extractQuestions o lm.content active
  let newQueue := questioned.foldl
    (fun q target =>
      let q1 := if (List.lookup target q).isSome then q else q ++ [(target, ([] : List String))]
      let cur := (List.lookup target q1).getD []
      if decide (lm.agent ∈ cur) then q1 else aset q1 target (cur ++ [lm.agent]))
    st.questionQueue
  { st with questionQueue := newQueue }

/-- Source `Orchestrator._get_agent_with_pending_questions`. -/
def pendingQuestions (st : OrchState) (active : List Agent) : Option Agent :=
  active.find? (fun a => !(qget st.questionQueue a.name).isEmpty)

/-- Source `Orchestrator._clear_question_queue`. -/
def clearQueue (st : OrchState) (name : String) : OrchState :=
  if (List.lookup name st.questionQueue).isSome then
    { st with questionQueue := aset st.questionQueue name [] }
  else st

/-- RULES 4-7 of `select_next_speaker`: patience overflow, echo chamber,
default patience pick (the state is returned unchanged). -/
def stageE (st : OrchState) (o : Oracle) (active : List Agent)
    (recent : List Msg) (ls : String) : Option Agent × OrchState :=
  match findImpatient st.agentPatience active with
  | some imp => (some imp, st)
  | none =>
    if isEchoChamber o recent then
      if !(quietAgents (active.filter (fun a => decide (a.name ≠ ls))) recent).isEmpty then
        (pickByPatience st.agentPatience
          (quietAgents (active.filter (fun a => decide (a.name ≠ ls))) recent), st)
      else
        (pickByPatience st.agentPatience
          (active.filter (fun a => decide (a.name ≠ ls))), st)
    else
      (pickByPatience st.agentPatience
        (active.filter (fun a => decide (a.name ≠ ls))), st)

/-- RULE 3 of `select_next_speaker`: pending questions. -/
def stageD (st : OrchState) (o : Oracle) (active : List Agent)
    (recent : List Msg) (ls : String) : Option Agent × OrchState :=
  match pendingQuestions st active with
  | some aq =>
    if decide (aq.name ≠ ls) && decide (aq.name ∉ st.forceDeflectionFrom) then
      (some aq, clearQueue st aq.name)
    else stageE st o active recent ls
  | none => stageE st o active recent ls

/-- Question-queue refresh plus RULE 2 of `select_next_speaker`
(defense priority). -/
def stageC (st : OrchState) (o : Oracle) (active : List Agent)
    (recent : List Msg) (lm : Msg) : Option Agent × OrchState :=
  match findAccused o lm.content active with
  | some acc =>
    if decide (acc.name ≠ lm.agent) then
      if decide (acc.name ∉ (updateQuestionQueue st o lm active).forceDeflectionFrom) then
        (some acc, clearQueue (updateQuestionQueue st o lm active) acc.name)
      else stageD (updateQuestionQueue st o lm active) o active recent lm.agent
    else stageD (updateQuestionQueue st o lm active) o active recent lm.agent
  | none => stageD (updateQuestionQueue st o lm active) o active recent lm.agent

/-- RULE 1 of `select_next_speaker`: ping-pong mediation. -/
def stageB (st : OrchState) (o : Oracle) (rng : Nat) (active : List Agent)
    (recent : List Msg) (lm : Msg) : Option Agent × OrchState :=
  match detectPingpong recent active with
  | some pair =>
    match pickMediator rng active pair with
    | some m =>
      (some m, { st with lastPingpongMediator := some m.name,
                         forceDeflectionFrom := pair.map (·.name) })
    | none => stageC st o active recent lm
  | none => stageC st o active recent lm

/-- RULE 0 of `select_next_speaker` (forced deflection after a mediator
spoke) followed by the rest of the cascade. -/
def selectAfterRecent (st : OrchState) (o : Oracle) (rng : Nat)
    (active : List Agent) (recent : List Msg) (lm : Msg) : Option Agent × OrchState :=
  match st.lastPingpongMediator with
  | some med =>
    if decide (med ≠ "") && decide (lm.agent = med) then
      if (active.filter (fun a =>
          decide (a.name ≠ lm.agent) && decide (a.name ∉ st.forceDeflectionFrom))).isEmpty then
        stageB st o rng active recent lm
      else
        (pickByPatience st.agentPatience
          (active.filter (fun a =>
            decide (a.name ≠ lm.agent) && decide (a.name ∉ st.forceDeflectionFrom))),
         { st with lastPingpongMediator := none, forceDeflectionFrom := [] })
    else stageB st o rng active recent lm
  | none => stageB st o rng active recent lm

/-- Source `Orchestrator.select_next_speaker` as a pure function of the orchestrator
state, oracle stubs, injected random seed, agents, full conversation history
and eliminated names.  Returns the decision and the post-call state. -/
def selectNextSpeaker (st : OrchState) (o : Oracle) (rng : Nat)
    (agents : List Agent) (hist : List Msg) (eliminated : List String) :
    Option Agent × OrchState :=
  if (activeAgents agents eliminated).isEmpty then (none, st)
  else
    match ((lastN 10 hist).filter (fun m => !m.isSystem)).getLast? with
    | none =>
      (pickRandom rng (activeAgents agents eliminated),
       { st with agentPatience :=
          updatePatience st.agentPatience (activeAgents agents eliminated) hist })
    | some lm =>
      selectAfterRecent
        { st with agentPatience :=
            updatePatience st.agentPatience (activeAgents agents eliminated) hist }
        o rng (activeAgents agents eliminated)
        ((lastN 10 hist).filter (fun m => !m.isSystem)) lm

/-! ## Round state machine (`game_engine.py`) -/

/-- The `MafiaGame` fields read and written by `trigger_voting` and the win
check.  `winner` models the argument passed to `stop(winner=...)`; message
appending and the re-entrancy flag are elided (they do not feed back into
eliminations or the win decision). -/
structure GameState where
  agents : List Agent
  eliminated : List String
  isRunning : Bool
  winner : Option String
deriving DecidableEq, Repr

/-- One voter's matched candidate inside `conduct_voting`: the extracted
vote name (oracle stub `vote`) matched against the candidate list (all
active agents except the voter) by lower-cased substring, first match wins.
The stub models the LLM response after `VOTE:` line extraction. -/
def castVote (active : List Agent) (vote : String → Option String)
    (ag : Agent) : Option String :=
  match vote ag.name with
  | none => none
  | some vn =>
    ((active.filter (fun b => decide (b.name ≠ ag.name))).map (·.name)).find?
      (fun c => isSubstr (lowerStr c) (lowerStr vn))

/-- Source `votes[candidate] = votes.get(candidate, 0) + 1` on an insertion-ordered
dict. -/
def tallyIncr (votes : List (String × Nat)) (c : String) : List (String × Nat) :=
  aset votes c (aget votes c + 1)

/-- Source `MafiaGame.conduct_voting`: each active agent contributes at most one
vote (their first matched candidate); the tally dict is insertion-ordered. -/
def conductVoting (agents : List Agent) (eliminated : List String)
    (vote : String → Option String) : List (String × Nat) :=
  let active := activeAgents agents eliminated
  active.foldl
    (fun votes ag =>
      match castVote active vote ag with
      | some c => tallyIncr votes c
      | none => votes) []

/-- One comparison step of Python's `max` with a key function: the running
best is replaced only when the new count is strictly greater. -/
def pickMax (best p : String × Nat) : String × Nat :=
  if p.2 > best.2 then p else best

/-- Python `max(votes, key=votes.get)`: the first key attaining the maximal
count, in dict insertion order. -/
def firstMax (t : List (String × Nat)) : Option String :=
  match t with
  | [] => none
  | x :: xs => some ((xs.foldl pickMax x).1)

/-- Source `MafiaGame.conduct_mafia_kill`: each remaining mafia agent's raw LLM
response in turn (`.none` models exception or `None`); the first response
containing a valid candidate (lower-cased substring match, candidates in
order) wins, otherwise a random candidate. -/
def conductMafiaKill (candidates : List String) (responses : List (Option String))
    (rng : Nat) : Option String :=
  if candidates.isEmpty then none
  else
    match (responses.filterMap
        (fun r => r.bind (fun t =>
          let t2 := stripChars [Char.ofNat 39] (stripChars [Char.ofNat 34] (pyStrip t))
          if decide (t2 = "") then none
          else candidates.find? (fun c => isSubstr (lowerStr c) (lowerStr t2))))).head? with
    | some c => some c
    | none => candidates[rng % candidates.length]?

/-- Active mafia count of a state (as computed by the win check). -/
def mafiaActive (gs : GameState) : Nat :=
  ((activeAgents gs.agents gs.eliminated).filter (fun a => decide (a.role = "mafia"))).length

/-- Active villager count as the win check computes it:
`len(remaining) - mafia_count`. -/
def villagerActive (gs : GameState) : Nat :=
  (activeAgents gs.agents gs.eliminated).length - mafiaActive gs

/-- Source `mafia_count` as computed inside `trigger_voting`'s win check. -/
def winMafiaCount (gs : GameState) (elim2 : List String) : Nat :=
  ((gs.agents.filter (fun a => decide (a.name ∉ elim2))).filter
    (fun a => decide (a.role = "mafia"))).length

/-- Source `villager_count = len(remaining_agents) - mafia_count` in the win check. -/
def winVillagerCount (gs : GameState) (elim2 : List String) : Nat :=
  (gs.agents.filter (fun a => decide (a.name ∉ elim2))).length - winMafiaCount gs elim2

/-- The "Check win conditions" block at the end of `trigger_voting`:
villagers win when no mafia remain, mafia win when active mafia are at least
as many as active villagers; either outcome stops the game. -/
def winCheck (gs : GameState) (elim2 : List String) : GameState :=
  if winMafiaCount gs elim2 = 0 then
    { gs with eliminated := elim2, isRunning := false, winner := some "villagers" }
  else if winMafiaCount gs elim2 ≥ winVillagerCount gs elim2 then
    { gs with eliminated := elim2, isRunning := false, winner := some "mafia" }
  else
    { gs with eliminated := elim2 }

/-- Source `MafiaGame.trigger_voting`: vote elimination, then night kill, then a
single win check over the post-night-kill population.  `vote` is the voting
oracle stub, `killResponses` the mafia night-kill responses, `rng` the
random fallback seed.  Will generation/editing only append messages and are
elided here (see `conductWillEditing`). -/
def triggerVoting (gs : GameState) (vote : String → Option String)
    (killResponses : List (Option String)) (rng : Nat) : GameState :=
  let votes := conductVoting gs.agents gs.eliminated vote
  let elim1 : List String :=
    match firstMax votes with
    | some n => if gs.agents.any (fun a => decide (a.name = n))
                then gs.eliminated ++ [n] else gs.eliminated
    | none => gs.eliminated
  let remainingMafia := gs.agents.filter
    (fun a => decide (a.role = "mafia") && decide (a.name ∉ elim1))
  let elim2 : List String :=
    if !remainingMafia.isEmpty then
      let cands := ((gs.agents.filter (fun a => decide (a.name ∉ elim1))).filter
        (fun a => decide (a.role = "villager"))).map (·.name)
      match conductMafiaKill cands killResponses rng with
      | some k => if gs.agents.any (fun a => decide (a.name = k))
                  then elim1 ++ [k] else elim1
      | none => elim1
    else elim1
  winCheck gs elim2

/-- Helper for `pyWords`: scan the characters, accumulating the current
token reversed. -/
def pyWordsAux : List Char → List Char → List String
  | [], cur => if cur.isEmpty then [] else [⟨cur.reverse⟩]
  | c :: cs, cur =>
    if c.isWhitespace then
      if cur.isEmpty then pyWordsAux cs [] else ⟨cur.reverse⟩ :: pyWordsAux cs []
    else pyWordsAux cs (c :: cur)

/-- Python `text.split()`: whitespace-separated tokens, empties dropped. -/
def pyWords (s : String) : List String := pyWordsAux s.data []

/-- Source `word.strip(punctuation).lower()` as used on each will token. -/
def cleanTok (w : String) : String :=
  lowerStr (stripChars ['.', ',', '!', '?', Char.ofNat 34, Char.ofNat 39, '-'] w)

/-- Source `" ".join(words)`. -/
def joinSpace : List String → String
  | [] => ""
  | [w] => w
  | w :: ws => w ++ " " ++ joinSpace ws

/-- The Python `for i, word in enumerate(words)` first-match search. -/
def firstMatchIdx (p : String → Bool) : List String → Option Nat
  | [] => none
  | t :: ts => if p t then some 0 else (firstMatchIdx p ts).map (· + 1)

/-- Source `MafiaGame.conduct_will_editing` past the LLM loop: `removedWord` is the
processed word obtained from the first responsive mafia agent (the source
lower-cases and strips it; `none` models no usable response, and the empty
string is falsy in Python).  Removes the first token whose punctuation-
stripped lower-cased form equals the word, rejoining with single spaces;
otherwise returns the original will object unchanged. -/
def conductWillEditing (originalWill : String) (removedWord : Option String) : String :=
  match removedWord with
  | none => originalWill
  | some w =>
    if decide (w = "") then originalWill
    else
      let words := pyWords originalWill
      match firstMatchIdx (fun t => decide (cleanTok t = w)) words with
      | some i => joinSpace (words.eraseIdx i)
      | none => originalWill

/-! ## Concrete fixtures used by counterexamples and witnesses -/

/-- The fully-negative deterministic oracle stub: every query returns `None`
(a successful call carrying no signal). -/
def stubOracle : Oracle :=
  ⟨fun _ _ => .ok none, fun _ _ => .ok none, fun _ => .ok none⟩

/-- Two agents, used by the patience-update scenarios. -/
def agentsAB : List Agent := [⟨"Ann", "villager"⟩, ⟨"Bob", "villager"⟩]

/-- A single non-system message spoken by Ann. -/
def histAnn : List Msg := [⟨"Ann", "zz", false⟩]

/-- Four agents for the successive-call scenario. -/
def agentsABCD : List Agent :=
  [⟨"Ann", "villager"⟩, ⟨"Bob", "villager"⟩, ⟨"Cat", "villager"⟩, ⟨"Dan", "villager"⟩]

/-- Orchestrator state remembering mediator Cat and ping-pong pair Ann/Bob,
with Ann holding patience 5. -/
def stMediator : OrchState := ⟨[("Ann", 5)], [], some "Cat", ["Ann", "Bob"]⟩

/-- A single non-system message spoken by Cat. -/
def histCat : List Msg := [⟨"Cat", "zzz", false⟩]

/-- State where Xan has patience 7, a pending question from Zed, and is in
the remembered ping-pong pair. -/
def stXan : OrchState := ⟨[("Xan", 7)], [("Xan", ["Zed"])], none, ["Xan"]⟩

/-- Two agents for the queue-clearing scenario. -/
def agentsXY : List Agent := [⟨"Xan", "villager"⟩, ⟨"Yor", "villager"⟩]

/-- A single non-system message spoken by Yor. -/
def histYor : List Msg := [⟨"Yor", "zzz", false⟩]

/-- Five agents, 2 mafia and 3 villagers, for the win-boundary scenario. -/
def agentsWin : List Agent :=
  [⟨"M1", "mafia"⟩, ⟨"M2", "mafia"⟩, ⟨"V1", "villager"⟩, ⟨"V2", "villager"⟩, ⟨"V3", "villager"⟩]

/-- Fresh running game over `agentsWin`. -/
def gsWin : GameState := ⟨agentsWin, [], true, none⟩

/-- Four messages that all contain two of the fixed echo keywords. -/
def msgsEcho : List Msg :=
  [⟨"Ann", "consensus deflecting", false⟩, ⟨"Bob", "consensus deflecting", false⟩,
   ⟨"Cat", "consensus deflecting", false⟩, ⟨"Dan", "consensus deflecting", false⟩]

/-! ## Counterexamples -/

/-- C1 counterexample: `_update_patience` is keyed off call count, not
message identity.  Invoking it twice for the same conversation-log state
(one message, by Ann) leaves Bob's counter at 2, not at the single-call
value 1: the second invocation double-counts, contrary to the claim. -/
theorem c1_counterexample :
    aget (updatePatience [] agentsAB histAnn) "Bob" = 1 ∧
    aget (updatePatience (updatePatience [] agentsAB histAnn) agentsAB histAnn) "Bob" = 2 := by
  decide

/-- C2 counterexample: with a fixed log, active set and fully-deterministic
negative oracle stubs, two successive calls of `select_next_speaker` return
different agents (Dan, then Ann), because the first call consumes the
remembered mediator state and mutates patience. -/
theorem c2_counterexample :
    (selectNextSpeaker stMediator stubOracle 0 agentsABCD histCat []).1 =
      some ⟨"Dan", "villager"⟩ ∧
    (selectNextSpeaker (selectNextSpeaker stMediator stubOracle 0 agentsABCD histCat []).2
        stubOracle 0 agentsABCD histCat []).1 = some ⟨"Ann", "villager"⟩ := by
  decide

/-- C3 counterexample: with a non-empty active set whose only member was the
last speaker, `select_next_speaker` returns none — contradicting the claim
that a non-empty active set always yields exactly one agent. -/
theorem c3_counterexample :
    activeAgents [⟨"Ann", "villager"⟩] [] ≠ [] ∧
    (selectNextSpeaker ⟨[], [], none, []⟩ stubOracle 0 [⟨"Ann", "villager"⟩]
        [⟨"Ann", "zzz", false⟩] []).1 = none := by
  decide

/-- C5 counterexample: Xan is selected through the patience-overflow rule
(rule 4) while holding a pending question from Zed, and the question-queue
entry survives the selection — contradicting the claim that the entry is
cleared on selection regardless of the selecting rule. -/
theorem c5_counterexample :
    (selectNextSpeaker stXan stubOracle 0 agentsXY histYor []).1 =
      some ⟨"Xan", "villager"⟩ ∧
    (selectNextSpeaker stXan stubOracle 0 agentsXY histYor []).2.questionQueue =
      [("Xan", ["Zed"])] := by
  decide

/-- C6 counterexample: after the vote eliminates V1, active mafia already
equal active villagers (2 = 2), so per the claim the mafia win should fire
before any further elimination; the code instead runs the night kill first,
eliminating V2 as well, and only then checks the win condition. -/
theorem c6_counterexample :
    mafiaActive ⟨agentsWin, ["V1"], true, none⟩ = 2 ∧
    villagerActive ⟨agentsWin, ["V1"], true, none⟩ = 2 ∧
    (triggerVoting gsWin (fun _ => some "V1") [some "V2"] 0).eliminated = ["V1", "V2"] ∧
    (triggerVoting gsWin (fun _ => some "V1") [some "V2"] 0).winner = some "mafia" := by
  decide

/-- C8 counterexample: the oracle transport succeeds but returns null on the
loop-detection query; the claim says every oracle failure falls back to the
local heuristic (which here answers true), but the code answers false. -/
theorem c8_counterexample :
    simpleEchoDetection msgsEcho = true ∧
    isEchoChamber stubOracle msgsEcho = false := by
  decide

/-! ## Association-list lemmas -/

theorem lookup_aset_self (m : List (String × β)) (k : String) (v : β) :
    List.lookup k (aset m k v) = some v := by
  induction m with
  | nil => simp [aset, List.lookup_cons]
  | cons p rest ih =>
    obtain ⟨k', v'⟩ := p
    by_cases h : k' = k
    · simp [aset, h, List.lookup_cons]
    · simp only [aset, if_neg h, List.lookup_cons,
        beq_false_of_ne (fun he => h he.symm), ih]

theorem lookup_aset_ne (m : List (String × β)) (k k' : String) (v : β)
    (h : k' ≠ k) : List.lookup k' (aset m k v) = List.lookup k' m := by
  induction m with
  | nil => simp [aset, List.lookup_cons, List.lookup_nil, beq_false_of_ne h]
  | cons p rest ih =>
    obtain ⟨k₀, v₀⟩ := p
    by_cases h₀ : k₀ = k
    · subst h₀
      simp [aset, List.lookup_cons, beq_false_of_ne h]
    · simp only [aset, if_neg h₀, List.lookup_cons, ih]

theorem aget_aset_self (m : List (String × Nat)) (k : String) (v : Nat) :
    aget (aset m k v) k = v := by
  simp [aget, lookup_aset_self]

theorem aget_aset_ne (m : List (String × Nat)) (k k' : String) (v : Nat)
    (h : k' ≠ k) : aget (aset m k v) k' = aget m k' := by
  simp [aget, lookup_aset_ne m k k' v h]

theorem lookup_append_single (pm : List (String × Nat)) (k n : String) (v : Nat)
    (h : List.lookup k pm = none) :
    List.lookup n (pm ++ [(k, v)]) = if n = k then some v else List.lookup n pm := by
  induction pm with
  | nil =>
    by_cases hn : n = k
    · simp [List.lookup_cons, hn]
    · simp [List.lookup_cons, List.lookup_nil, hn, beq_false_of_ne hn]
  | cons p rest ih =>
    obtain ⟨k₀, v₀⟩ := p
    rw [List.lookup_cons] at h
    by_cases h₀ : k = k₀
    · simp [h₀] at h
    · rw [beq_false_of_ne h₀] at h
      by_cases hn : n = k₀
      · subst hn
        have : ¬n = k := fun he => h₀ (he ▸ rfl)
        simp [List.lookup_cons, this]
      · simp only [List.cons_append, List.lookup_cons, beq_false_of_ne hn, ih h]

theorem aget_patienceInit (m : List (String × Nat)) (a : Agent) (n : String) :
    aget (patienceInit m a) n = aget m n := by
  unfold patienceInit
  by_cases h : (List.lookup a.name m).isSome
  · rw [if_pos h]
  · rw [if_neg h]
    have hnone : List.lookup a.name m = none := by
      cases hl : List.lookup a.name m with
      | none => rfl
      | some v => rw [hl] at h; simp at h
    unfold aget
    rw [lookup_append_single m a.name n 0 hnone]
    by_cases hn : n = a.name
    · subst hn; rw [if_pos rfl, hnone]; rfl
    · rw [if_neg hn]

theorem aget_patienceInit_fold (active : List Agent) (pm : List (String × Nat))
    (n : String) : aget (active.foldl patienceInit pm) n = aget pm n := by
  induction active generalizing pm with
  | nil => rfl
  | cons a rest ih => rw [List.foldl_cons, ih, aget_patienceInit]

theorem aget_patienceStep_other (s : String) (m : List (String × Nat)) (a : Agent)
    (n : String) (h : n ≠ a.name) : aget (patienceStep s m a) n = aget m n := by
  unfold patienceStep
  by_cases hs : decide (a.name = s)
  · rw [if_pos hs, aget_aset_ne _ _ _ _ h]
  · rw [if_neg hs, aget_aset_ne _ _ _ _ h]

theorem aget_patienceStep_fold_not_mem (s : String) (l : List Agent)
    (m : List (String × Nat)) (n : String) (h : n ∉ l.map (·.name)) :
    aget (l.foldl (patienceStep s) m) n = aget m n := by
  induction l generalizing m with
  | nil => rfl
  | cons a rest ih =>
    simp only [List.map_cons, List.mem_cons, not_or] at h
    rw [List.foldl_cons, ih _ h.2, aget_patienceStep_other _ _ _ _ h.1]

theorem aget_patienceStep_fold_nodup (s : String) (l : List Agent)
    (m : List (String × Nat)) (a : Agent) (hnd : (l.map (·.name)).Nodup)
    (ha : a ∈ l) :
    aget (l.foldl (patienceStep s) m) a.name =
      if a.name = s then 0 else aget m a.name + 1 := by
  induction l generalizing m with
  | nil => cases ha
  | cons x rest ih =>
    rw [List.map_cons, List.nodup_cons] at hnd
    rcases List.mem_cons.mp ha with h | h
    · subst h
      rw [List.foldl_cons, aget_patienceStep_fold_not_mem _ _ _ _ hnd.1]
      unfold patienceStep
      by_cases hs : a.name = s
      · rw [if_pos (by simpa using hs), aget_aset_self, if_pos hs]
      · rw [if_neg (by simpa using hs), aget_aset_self, if_neg hs]
    · have hx : a.name ≠ x.name := by
        intro he
        exact hnd.1 (he ▸ List.mem_map_of_mem (·.name) h)
      rw [List.foldl_cons, ih _ hnd.2 h]
      by_cases hs : a.name = s
      · rw [if_pos hs, if_pos hs]
      · rw [if_neg hs, if_neg hs, aget_patienceStep_other _ _ _ _ hx]

/-! ## C1: patience update semantics -/

/-- C1 (amended): `_update_patience` is keyed off call count, not message
identity.  Each invocation resets the last non-system speaker's counter to 0
and increments every other active agent's counter by exactly 1, independent
of how many new messages arrived; invoking it twice for one log state
therefore increments twice (see `c1_counterexample`). -/
theorem c1_patience_per_call (pm : List (String × Nat)) (active : List Agent)
    (hist : List Msg) (lm : Msg) (a : Agent)
    (hnd : (active.map (·.name)).Nodup)
    (hl : (hist.filter (fun m => !m.isSystem)).getLast? = some lm)
    (ha : a ∈ active) :
    aget (updatePatience pm active hist) a.name =
      if a.name = lm.agent then 0 else aget pm a.name + 1 := by
  unfold updatePatience
  rw [hl]
  rw [aget_patienceStep_fold_nodup _ _ _ _ hnd ha]
  by_cases hs : a.name = lm.agent
  · rw [if_pos hs, if_pos hs]
  · rw [if_neg hs, if_neg hs, aget_patienceInit_fold]

/-- Witness for `c1_patience_per_call` at a concrete input. -/
theorem c1_patience_per_call_witness :
    aget (updatePatience [] agentsAB histAnn) "Bob" = 1 := by
  have h := c1_patience_per_call [] agentsAB histAnn ⟨"Ann", "zz", false⟩
    ⟨"Bob", "villager"⟩ (by decide) (by decide) (by decide)
  simpa using h

/-! ## C9: will editing -/

theorem firstMatchIdx_eq_none (p : String → Bool) (l : List String)
    (h : ∀ t ∈ l, p t = false) : firstMatchIdx p l = none := by
  induction l with
  | nil => rfl
  | cons t ts ih =>
    unfold firstMatchIdx
    rw [h t (List.mem_cons_self t ts)]
    simp only [Bool.false_eq_true, if_false,
      ih (fun x hx => h x (List.mem_cons_of_mem t hx)), Option.map_none']

theorem firstMatchIdx_earlier_false (p : String → Bool) (l : List String) (i : Nat)
    (hidx : firstMatchIdx p l = some i) :
    ∀ j, j < i → ∀ (hj : j < l.length), p (l.get ⟨j, hj⟩) = false := by
  induction l generalizing i with
  | nil => cases hidx
  | cons t ts ih =>
    unfold firstMatchIdx at hidx
    by_cases hp : p t
    · rw [if_pos hp] at hidx
      cases hidx
      intro j hj _
      cases hj
    · rw [if_neg hp] at hidx
      cases hfi : firstMatchIdx p ts with
      | none => rw [hfi] at hidx; cases hidx
      | some i' =>
        rw [hfi] at hidx
        simp only [Option.map_some'] at hidx
        cases hidx
        intro j hj hjl
        cases j with
        | zero => simpa using hp
        | succ j' =>
          exact ih i' hfi j' (Nat.lt_of_succ_lt_succ hj) (Nat.lt_of_succ_lt_succ hjl)

/-- C9 (confirmed): will editing removes exactly the first token of the
original will whose punctuation-stripped, lower-cased form equals the
requested word (the source lower-cases the requested word before the
comparison, making the token match case-insensitive), and when no token
matches — or no usable word was produced — the original will is returned
unchanged, byte for byte. -/
theorem c9_will_editing (will w : String) :
    ((∀ t ∈ pyWords will, cleanTok t ≠ w) → conductWillEditing will (some w) = will) ∧
    conductWillEditing will none = will ∧
    (∀ i, firstMatchIdx (fun t => decide (cleanTok t = w)) (pyWords will) = some i →
      w ≠ "" →
      conductWillEditing will (some w) = joinSpace ((pyWords will).eraseIdx i) ∧
      ∀ j, j < i → ∀ (hj : j < (pyWords will).length),
        cleanTok ((pyWords will).get ⟨j, hj⟩) ≠ w) := by
  refine ⟨?_, rfl, ?_⟩
  · intro h
    by_cases hw : w = ""
    · simp only [conductWillEditing, hw]
      rw [if_pos (by simp)]
    · simp only [conductWillEditing]
      rw [if_neg (by simpa using hw)]
      rw [firstMatchIdx_eq_none _ _ (fun t ht => by simpa using h t ht)]
  · intro i hidx hw
    constructor
    · simp only [conductWillEditing]
      rw [if_neg (by simpa using hw), hidx]
    · intro j hj hjl
      have := firstMatchIdx_earlier_false _ _ _ hidx j hj hjl
      simpa using this

/-- Witness for `c9_will_editing`: both the no-match branch and the
first-match branch at concrete inputs. -/
theorem c9_will_editing_witness :
    conductWillEditing "I saw Bob, acting shady." (some "carol") = "I saw Bob, acting shady." ∧
    conductWillEditing "I saw Bob, acting shady." (some "bob") = "I saw acting shady." := by
  constructor
  · exact (c9_will_editing "I saw Bob, acting shady." "carol").1 (by decide)
  · have h := ((c9_will_editing "I saw Bob, acting shady." "bob").2.2 2
      (by decide) (by decide)).1
    exact h.trans (by decide)

/-! ## C8: oracle failure semantics -/

/-- The always-raising oracle stub. -/
def errOracle : Oracle :=
  ⟨fun _ _ => .error (), fun _ _ => .error (), fun _ => .error ()⟩

/-- C8 (amended): a raised oracle exception or a null return is treated as a
negative/no-signal answer by the accusation and question classifiers; the
loop-detection query falls back to the deterministic local heuristic only
when the call raises — a null return is treated as a plain "no", not as a
trigger for the heuristic (see `c8_counterexample`).  The cascade therefore
always completes with some (possibly negative) answer. -/
theorem c8_failure_semantics (o : Oracle) (content : String)
    (active : List Agent) (recent : List Msg) :
    (o.findAcc content (active.map (·.name)) = .error () →
      findAccused o content active = none) ∧
    (o.findAcc content (active.map (·.name)) = .ok none →
      findAccused o content active = none) ∧
    (o.extractQ content (active.map (·.name)) = .error () →
      extractQuestions o content active = []) ∧
    (o.extractQ content (active.map (·.name)) = .ok none →
      extractQuestions o content active = []) ∧
    (o.isEcho (lastN 4 recent) = .error () →
      isEchoChamber o recent = simpleEchoDetection recent) ∧
    (o.isEcho (lastN 4 recent) = .ok none →
      isEchoChamber o recent = false) := by
  refine ⟨?_, ?_, ?_, ?_, ?_, ?_⟩
  · intro h
    unfold findAccused
    by_cases hfast : (active.any fun a => isSubstr (lowerStr a.name) (lowerStr content))
    · rw [h]; simp [hfast]
    · simp [hfast]
  · intro h
    unfold findAccused
    by_cases hfast : (active.any fun a => isSubstr (lowerStr a.name) (lowerStr content))
    · rw [h]; simp [hfast]
    · simp [hfast]
  · intro h; unfold extractQuestions; rw [h]
  · intro h; unfold extractQuestions; rw [h]
  · intro h
    unfold isEchoChamber
    by_cases hlen : recent.length < 4
    · rw [if_pos hlen]
      unfold simpleEchoDetection
      rw [if_pos hlen]
    · rw [if_neg hlen, h]
  · intro h
    unfold isEchoChamber
    by_cases hlen : recent.length < 4
    · rw [if_pos hlen]
    · rw [if_neg hlen, h]

/-- Witness for `c8_failure_semantics` at concrete inputs: the raising
oracle falls back to the heuristic on loop detection (which fires here)
and yields a negative answer for the accusation classifier. -/
theorem c8_failure_semantics_witness :
    isEchoChamber errOracle msgsEcho = simpleEchoDetection msgsEcho ∧
    findAccused errOracle "Ann is bad" [⟨"Ann", "villager"⟩] = none := by
  constructor
  · exact (c8_failure_semantics errOracle "" [] msgsEcho).2.2.2.2.1 rfl
  · exact (c8_failure_semantics errOracle "Ann is bad" [⟨"Ann", "villager"⟩] []).1 rfl

/-! ## C7: vote casting and tallying -/

theorem conductVoting_eq_filterMap_aux (active : List Agent)
    (vote : String → Option String) (l : List Agent) (votes : List (String × Nat)) :
    l.foldl (fun v ag =>
        match castVote active vote ag with
        | some c => tallyIncr v c
        | none => v) votes =
      (l.filterMap (castVote active vote)).foldl tallyIncr votes := by
  induction l generalizing votes with
  | nil => rfl
  | cons a rest ih =>
    rw [List.foldl_cons, List.filterMap_cons]
    cases h : castVote active vote a with
    | none => rw [ih]
    | some c => rw [List.foldl_cons, ih]

theorem conductVoting_eq_filterMap (agents : List Agent) (elim : List String)
    (vote : String → Option String) :
    conductVoting agents elim vote =
      ((activeAgents agents elim).filterMap
        (castVote (activeAgents agents elim) vote)).foldl tallyIncr [] := by
  unfold conductVoting
  exact conductVoting_eq_filterMap_aux _ _ _ _

theorem tallyIncr_sum (votes : List (String × Nat)) (c : String) :
    ((tallyIncr votes c).map (·.2)).sum = (votes.map (·.2)).sum + 1 := by
  induction votes with
  | nil => simp [tallyIncr, aset, aget]
  | cons p rest ih =>
    obtain ⟨k, v⟩ := p
    by_cases h : k = c
    · subst h
      have h1 : aget ((k, v) :: rest) k = v := by
        simp [aget, List.lookup_cons]
      have h2 : aset ((k, v) :: rest) k (v + 1) = (k, v + 1) :: rest := by
        simp [aset]
      unfold tallyIncr
      rw [h1, h2]
      simp only [List.map_cons, List.sum_cons]
      omega
    · have h1 : aget ((k, v) :: rest) c = aget rest c := by
        simp [aget, List.lookup_cons, beq_false_of_ne (fun he => h he.symm)]
      have h2 : aset ((k, v) :: rest) c (aget rest c + 1) =
          (k, v) :: aset rest c (aget rest c + 1) := by
        simp [aset, h]
      unfold tallyIncr
      rw [h1, h2]
      simp only [List.map_cons, List.sum_cons]
      have ih' : ((aset rest c (aget rest c + 1)).map (·.2)).sum =
          (rest.map (·.2)).sum + 1 := by
        have h3 := ih
        unfold tallyIncr at h3
        exact h3
      rw [ih']
      omega

theorem tallyFold_sum (ws : List String) (votes : List (String × Nat)) :
    ((ws.foldl tallyIncr votes).map (·.2)).sum = (votes.map (·.2)).sum + ws.length := by
  induction ws generalizing votes with
  | nil => simp
  | cons c rest ih =>
    rw [List.foldl_cons, ih, tallyIncr_sum]
    simp only [List.length_cons]
    omega

theorem foldlMax_spec (l : List (String × Nat)) (b r : String × Nat)
    (h : l.foldl pickMax b = r) :
    (r = b ∧ ∀ q ∈ l, q.2 ≤ b.2) ∨
    (∃ l₁ l₂, l = l₁ ++ r :: l₂ ∧ b.2 < r.2 ∧
      (∀ q ∈ l₁, q.2 < r.2) ∧ (∀ q ∈ l₂, q.2 ≤ r.2)) := by
  induction l generalizing b with
  | nil => exact Or.inl ⟨h.symm, by simp⟩
  | cons p rest ih =>
    rw [List.foldl_cons] at h
    by_cases hp : p.2 > b.2
    · have hstep : pickMax b p = p := by unfold pickMax; rw [if_pos hp]
      rw [hstep] at h
      rcases ih p h with ⟨hr, hall⟩ | ⟨l₁, l₂, heq, hlt, hfront, hback⟩
      · refine Or.inr ⟨[], rest, ?_, ?_, ?_, ?_⟩
        · rw [hr]; rfl
        · rw [hr]; exact hp
        · intro q hq; cases hq
        · intro q hq; rw [hr]; exact hall q hq
      · refine Or.inr ⟨p :: l₁, l₂, ?_, ?_, ?_, hback⟩
        · rw [List.cons_append, heq]
        · exact Nat.lt_trans hp hlt
        · intro q hq
          rcases List.mem_cons.mp hq with hq | hq
          · rw [hq]; exact hlt
          · exact hfront q hq
    · have hstep : pickMax b p = b := by unfold pickMax; rw [if_neg hp]
      rw [hstep] at h
      rcases ih b h with ⟨hr, hall⟩ | ⟨l₁, l₂, heq, hlt, hfront, hback⟩
      · refine Or.inl ⟨hr, ?_⟩
        intro q hq
        rcases List.mem_cons.mp hq with hq | hq
        · rw [hq]; exact Nat.le_of_not_lt hp
        · exact hall q hq
      · refine Or.inr ⟨p :: l₁, l₂, ?_, hlt, ?_, hback⟩
        · rw [List.cons_append, heq]
        · intro q hq
          rcases List.mem_cons.mp hq with hq | hq
          · rw [hq]; exact Nat.lt_of_le_of_lt (Nat.le_of_not_lt hp) hlt
          · exact hfront q hq

theorem firstMax_spec (t : List (String × Nat)) (n : String)
    (h : firstMax t = some n) :
    ∃ cnt l₁ l₂, t = l₁ ++ (n, cnt) :: l₂ ∧
      (∀ q ∈ l₁, q.2 < cnt) ∧ (∀ q ∈ l₂, q.2 ≤ cnt) := by
  match t with
  | [] => cases h
  | x :: xs =>
    have hn : (xs.foldl pickMax x).1 = n := by
      unfold firstMax at h
      exact Option.some.inj h
    have hr : (n, (xs.foldl pickMax x).2) = xs.foldl pickMax x := by
      rw [← hn]
    rcases foldlMax_spec xs x (xs.foldl pickMax x) rfl with
      ⟨hrx, hall⟩ | ⟨l₁, l₂, heq, hlt, hfront, hback⟩
    · refine ⟨(xs.foldl pickMax x).2, [], xs, ?_, by simp, ?_⟩
      · rw [List.nil_append, hr, hrx]
      · intro q hq
        rw [hrx]
        exact hall q hq
    · refine ⟨(xs.foldl pickMax x).2, x :: l₁, l₂, ?_, ?_, hback⟩
      · rw [List.cons_append, hr, ← heq]
      · intro q hq
        rcases List.mem_cons.mp hq with hq | hq
        · rw [hq]; exact hlt
        · exact hfront q hq

/-- C7 (confirmed): in a voting round every active agent contributes at most
one vote (the tally total is bounded by the head count), a voter's matched
candidate is never their own name (the candidate list excludes the voter),
and the elimination target returned by `max(votes, key=votes.get)` is the
entry with the maximal count that comes first in the tally's insertion
order: all earlier entries have strictly smaller counts and all later
entries have counts at most its own. -/
theorem c7_vote_tally (agents : List Agent) (elim : List String)
    (vote : String → Option String) :
    ((conductVoting agents elim vote).map (·.2)).sum ≤
      (activeAgents agents elim).length ∧
    (∀ a ∈ activeAgents agents elim,
      castVote (activeAgents agents elim) vote a ≠ some a.name) ∧
    (∀ n, firstMax (conductVoting agents elim vote) = some n →
      ∃ cnt l₁ l₂, conductVoting agents elim vote = l₁ ++ (n, cnt) :: l₂ ∧
        (∀ q ∈ l₁, q.2 < cnt) ∧ (∀ q ∈ l₂, q.2 ≤ cnt)) := by
  refine ⟨?_, ?_, ?_⟩
  · rw [conductVoting_eq_filterMap, tallyFold_sum]
    simpa using List.length_filterMap_le _ _
  · intro a _ hsome
    unfold castVote at hsome
    cases hv : vote a.name with
    | none => rw [hv] at hsome; cases hsome
    | some vn =>
      rw [hv] at hsome
      have hmem := List.mem_of_find?_eq_some hsome
      rcases List.mem_map.mp hmem with ⟨b, hb, hbn⟩
      have hpred := List.of_mem_filter hb
      rw [hbn] at hpred
      simp at hpred
  · intro n h
    exact firstMax_spec _ _ h

/-! ## C10: the selector only returns active agents -/

theorem foldlPick_mem (pm : List (String × Nat)) (xs : List Agent) (x : Agent) :
    xs.foldl (fun best a => if aget pm a.name > aget pm best.name then a else best) x = x ∨
    xs.foldl (fun best a => if aget pm a.name > aget pm best.name then a else best) x ∈ xs := by
  induction xs generalizing x with
  | nil => exact Or.inl rfl
  | cons p rest ih =>
    rw [List.foldl_cons]
    rcases ih (if aget pm p.name > aget pm x.name then p else x) with h | h
    · rw [h]
      by_cases hc : aget pm p.name > aget pm x.name
      · rw [if_pos hc]
        exact Or.inr (List.mem_cons_self p rest)
      · rw [if_neg hc]
        exact Or.inl rfl
    · exact Or.inr (List.mem_cons_of_mem p h)

theorem pickByPatience_mem (pm : List (String × Nat)) (l : List Agent) (a : Agent)
    (h : pickByPatience pm l = some a) : a ∈ l := by
  match l with
  | [] => cases h
  | x :: xs =>
    unfold pickByPatience at h
    have ha := Option.some.inj h
    rcases foldlPick_mem pm xs x with h' | h'
    · rw [← ha, h']
      exact List.mem_cons_self x xs
    · rw [← ha]
      exact List.mem_cons_of_mem x h'

theorem pickRandom_mem (rng : Nat) (l : List Agent) (a : Agent)
    (h : pickRandom rng l = some a) : a ∈ l := by
  unfold pickRandom at h
  obtain ⟨hlt, hget⟩ := List.getElem?_eq_some.mp h
  rw [← hget]
  exact List.getElem_mem hlt

theorem pickMediator_mem (rng : Nat) (active pair : List Agent) (a : Agent)
    (h : pickMediator rng active pair = some a) : a ∈ active := by
  unfold pickMediator at h
  exact List.mem_of_mem_filter (pickRandom_mem _ _ _ h)

theorem findAccused_mem (o : Oracle) (content : String) (active : List Agent)
    (acc : Agent) (h : findAccused o content active = some acc) : acc ∈ active := by
  unfold findAccused at h
  split at h
  · cases h
  · split at h
    · cases h
    · cases h
    · split at h
      · cases h
      · exact List.mem_of_find?_eq_some h

theorem stageE_queue (st : OrchState) (o : Oracle) (active : List Agent)
    (recent : List Msg) (ls : String) :
    (stageE st o active recent ls).2 = st := by
  unfold stageE
  split
  · rfl
  · split
    · split
      · rfl
      · rfl
    · rfl

theorem pendingQuestions_mem (st : OrchState) (active : List Agent) (a : Agent)
    (h : pendingQuestions st active = some a) : a ∈ active :=
  List.mem_of_find?_eq_some h

theorem findImpatient_mem (pm : List (String × Nat)) (active : List Agent) (a : Agent)
    (h : findImpatient pm active = some a) : a ∈ active :=
  List.mem_of_find?_eq_some h

theorem stageE_mem (st : OrchState) (o : Oracle) (active : List Agent)
    (recent : List Msg) (ls : String) (a : Agent)
    (h : (stageE st o active recent ls).1 = some a) : a ∈ active := by
  unfold stageE at h
  split at h
  · rename_i imp heq
    cases Option.some.inj h
    exact findImpatient_mem _ _ _ heq
  · split at h
    · split at h
      · have hm := pickByPatience_mem _ _ _ h
        exact List.mem_of_mem_filter (List.mem_of_mem_filter hm)
      · exact List.mem_of_mem_filter (pickByPatience_mem _ _ _ h)
    · exact List.mem_of_mem_filter (pickByPatience_mem _ _ _ h)

theorem stageD_mem (st : OrchState) (o : Oracle) (active : List Agent)
    (recent : List Msg) (ls : String) (a : Agent)
    (h : (stageD st o active recent ls).1 = some a) : a ∈ active := by
  unfold stageD at h
  split at h
  · rename_i aq heq
    split at h
    · cases Option.some.inj h
      exact pendingQuestions_mem _ _ _ heq
    · exact stageE_mem _ _ _ _ _ _ h
  · exact stageE_mem _ _ _ _ _ _ h

theorem stageC_mem (st : OrchState) (o : Oracle) (active : List Agent)
    (recent : List Msg) (lm : Msg) (a : Agent)
    (h : (stageC st o active recent lm).1 = some a) : a ∈ active := by
  unfold stageC at h
  split at h
  · rename_i acc heq
    split at h
    · split at h
      · cases Option.some.inj h
        exact findAccused_mem _ _ _ _ heq
      · exact stageD_mem _ _ _ _ _ _ h
    · exact stageD_mem _ _ _ _ _ _ h
  · exact stageD_mem _ _ _ _ _ _ h

theorem stageB_mem (st : OrchState) (o : Oracle) (rng : Nat) (active : List Agent)
    (recent : List Msg) (lm : Msg) (a : Agent)
    (h : (stageB st o rng active recent lm).1 = some a) : a ∈ active := by
  unfold stageB at h
  split at h
  · split at h
    · rename_i hpair m heq
      cases Option.some.inj h
      exact pickMediator_mem _ _ _ _ heq
    · exact stageC_mem _ _ _ _ _ _ h
  · exact stageC_mem _ _ _ _ _ _ h

theorem selectAfterRecent_mem (st : OrchState) (o : Oracle) (rng : Nat)
    (active : List Agent) (recent : List Msg) (lm : Msg) (a : Agent)
    (h : (selectAfterRecent st o rng active recent lm).1 = some a) : a ∈ active := by
  unfold selectAfterRecent at h
  split at h
  · split at h
    · split at h
      · exact stageB_mem _ _ _ _ _ _ _ h
      · exact List.mem_of_mem_filter (pickByPatience_mem _ _ _ h)
    · exact stageB_mem _ _ _ _ _ _ _ h
  · exact stageB_mem _ _ _ _ _ _ _ h

theorem selectNextSpeaker_mem_active (st : OrchState) (o : Oracle) (rng : Nat)
    (agents : List Agent) (hist : List Msg) (eliminated : List String) (a : Agent)
    (h : (selectNextSpeaker st o rng agents hist eliminated).1 = some a) :
    a ∈ activeAgents agents eliminated := by
  unfold selectNextSpeaker at h
  split at h
  · cases h
  · split at h
    · exact pickRandom_mem _ _ _ h
    · exact selectAfterRecent_mem _ _ _ _ _ _ _ h

/-- C10 (confirmed): any agent returned by `select_next_speaker` is an
element of the supplied agents list whose name is not in the eliminated
list, for every orchestrator state, oracle behaviour and random seed. -/
theorem c10_result_active (st : OrchState) (o : Oracle) (rng : Nat)
    (agents : List Agent) (hist : List Msg) (eliminated : List String) (a : Agent)
    (h : (selectNextSpeaker st o rng agents hist eliminated).1 = some a) :
    a ∈ agents ∧ a.name ∉ eliminated := by
  have hm := selectNextSpeaker_mem_active st o rng agents hist eliminated a h
  unfold activeAgents at hm
  refine ⟨List.mem_of_mem_filter hm, ?_⟩
  have := List.of_mem_filter hm
  exact of_decide_eq_true this

/-- Witness for `c10_result_active`: the concrete selection from the C5
scenario lands on an agent of the supplied list with a non-eliminated name. -/
theorem c10_result_active_witness :
    (⟨"Xan", "villager"⟩ : Agent) ∈ agentsXY ∧
    (⟨"Xan", "villager"⟩ : Agent).name ∉ ([] : List String) :=
  c10_result_active stXan stubOracle 0 agentsXY histYor [] ⟨"Xan", "villager"⟩ (by decide)

/-! ## Generic helpers for the cascade analysis -/

theorem getLast?_append_right {α : Type} (l₁ l₂ : List α) (h : l₂ ≠ []) :
    (l₁ ++ l₂).getLast? = l₂.getLast? := by
  rw [List.getLast?_append]
  cases hg : l₂.getLast? with
  | none => exact absurd (List.getLast?_eq_none_iff.mp hg) h
  | some x => rfl

theorem mem_of_getLast?_eq_some {α : Type} (l : List α) (x : α)
    (h : l.getLast? = some x) : x ∈ l := by
  rw [List.getLast?_eq_getElem?] at h
  obtain ⟨hlt, hget⟩ := List.getElem?_eq_some.mp h
  rw [← hget]
  exact List.getElem_mem hlt

theorem getLast?_drop_of_lt {α : Type} (l : List α) (i : Nat) (h : i < l.length) :
    (l.drop i).getLast? = l.getLast? := by
  conv_rhs => rw [← List.take_append_drop i l]
  rw [getLast?_append_right]
  apply List.ne_nil_of_length_pos
  rw [List.length_drop]
  omega

theorem lastN_getLast? {α : Type} (n : Nat) (l : List α) (hn : 0 < n) (hl : l ≠ []) :
    (lastN n l).getLast? = l.getLast? := by
  unfold lastN
  apply getLast?_drop_of_lt
  have := List.length_pos.mpr hl
  omega

theorem mem_uniqueList (l : List String) : ∀ x, x ∈ uniqueList l ↔ x ∈ l := by
  induction l with
  | nil => intro x; simp [uniqueList]
  | cons y ys ih =>
    intro x
    unfold uniqueList
    by_cases hy : y ∈ uniqueList ys
    · rw [if_pos hy, ih x]
      constructor
      · exact fun h => List.mem_cons_of_mem _ h
      · intro h
        rcases List.mem_cons.mp h with h | h
        · rw [h]; exact (ih y).mp hy
        · exact h
    · rw [if_neg hy]
      simp [List.mem_cons, ih x]

theorem pickByPatience_eq_none_iff (pm : List (String × Nat)) (l : List Agent) :
    pickByPatience pm l = none ↔ l = [] := by
  cases l with
  | nil => simp [pickByPatience]
  | cons x xs => simp [pickByPatience]

theorem pickByPatience_isSome (pm : List (String × Nat)) (l : List Agent)
    (h : l ≠ []) : (pickByPatience pm l).isSome = true := by
  cases l with
  | nil => exact absurd rfl h
  | cons x xs => rfl

theorem pickRandom_isSome (rng : Nat) (l : List Agent) (h : l ≠ []) :
    (pickRandom rng l).isSome = true := by
  unfold pickRandom
  have hlt : rng % l.length < l.length := Nat.mod_lt _ (List.length_pos.mpr h)
  rw [List.getElem?_eq_getElem hlt]
  rfl

theorem pickRandom_nil (rng : Nat) : pickRandom rng ([] : List Agent) = none := rfl

/-- Shape of a successful ping-pong detection: the returned pair is the
filter of the active agents by membership of their name in the window's
speaker set, and the window has at least 4 messages. -/
theorem detectPingpong_some (recent : List Msg) (active : List Agent)
    (pair : List Agent) (h : detectPingpong recent active = some pair) :
    pair = active.filter (fun ag =>
      decide (ag.name ∈ uniqueList ((lastN 4 recent).map (·.agent)))) ∧
    ¬ recent.length < 4 := by
  unfold detectPingpong at h
  split at h
  · cases h
  · rename_i hlen
    split at h
    · split at h
      · split at h
        · cases h
        · split at h
          · exact ⟨(Option.some.inj h).symm, hlen⟩
          · cases h
      · cases h
    · cases h

/-- Source `updateQuestionQueue` only touches the question queue. -/
theorem updateQuestionQueue_patience (st : OrchState) (o : Oracle) (lm : Msg)
    (active : List Agent) :
    (updateQuestionQueue st o lm active).agentPatience = st.agentPatience := rfl

/-- Source `updateQuestionQueue` preserves the deflection list. -/
theorem updateQuestionQueue_deflection (st : OrchState) (o : Oracle) (lm : Msg)
    (active : List Agent) :
    (updateQuestionQueue st o lm active).forceDeflectionFrom = st.forceDeflectionFrom := rfl

/-- After a clear, the agent's queue entry reads as empty. -/
theorem qget_clearQueue_self (st : OrchState) (n : String) :
    qget (clearQueue st n).questionQueue n = [] := by
  unfold clearQueue
  split
  · rename_i hs
    simp only [qget, lookup_aset_self]
    rfl
  · rename_i hs
    unfold qget
    cases hl : List.lookup n st.questionQueue with
    | none => rfl
    | some v => rw [hl] at hs; simp at hs

/-- The patience fold writes 0 for the key `s` when every processed agent is
named `s`. -/
theorem aget_patienceStep_fold_all (s : String) (l : List Agent)
    (m : List (String × Nat)) (hall : ∀ x ∈ l, x.name = s) (hne : l ≠ []) :
    aget (l.foldl (patienceStep s) m) s = 0 := by
  induction l generalizing m with
  | nil => exact absurd rfl hne
  | cons x rest ih =>
    rw [List.foldl_cons]
    by_cases hr : rest = []
    · subst hr
      rw [List.foldl_nil]
      have hx : x.name = s := hall x (List.mem_cons_self x [])
      unfold patienceStep
      rw [if_pos (by simpa using hx), hx, aget_aset_self]
    · exact ih _ (fun y hy => hall y (List.mem_cons_of_mem _ hy)) hr

/-- When every active agent is the last speaker, no one can be impatient
right after the patience update (they were all just reset to 0). -/
theorem findImpatient_update_all (pm : List (String × Nat)) (active : List Agent)
    (hist : List Msg) (lm' : Msg)
    (hl : (hist.filter (fun m => !m.isSystem)).getLast? = some lm')
    (H : ∀ a ∈ active, a.name = lm'.agent) :
    findImpatient (updatePatience pm active hist) active = none := by
  unfold findImpatient
  rw [List.find?_eq_none]
  intro a ha
  have hne : active ≠ [] := by
    intro he
    rw [he] at ha
    cases ha
  have hz : aget (updatePatience pm active hist) a.name = 0 := by
    unfold updatePatience
    rw [hl, H a ha]
    exact aget_patienceStep_fold_all lm'.agent active _ H hne
  rw [hz]
  simp [patienceThreshold]

/-! ## C2: determinism relative to the injected random source -/

/-- When no ping-pong is detected, RULE 1 ignores the random source. -/
theorem stageB_rng_free (st : OrchState) (o : Oracle) (rng : Nat)
    (active : List Agent) (recent : List Msg) (lm : Msg)
    (hdet : detectPingpong recent active = none) :
    stageB st o rng active recent lm = stageC st o active recent lm := by
  unfold stageB
  rw [hdet]

theorem selectAfterRecent_rng_irrelevant (st : OrchState) (o : Oracle)
    (r₁ r₂ : Nat) (active : List Agent) (recent : List Msg) (lm : Msg)
    (hdet : detectPingpong recent active = none) :
    selectAfterRecent st o r₁ active recent lm =
      selectAfterRecent st o r₂ active recent lm := by
  unfold selectAfterRecent
  rw [stageB_rng_free st o r₁ active recent lm hdet,
    stageB_rng_free st o r₂ active recent lm hdet]

/-- C2 (amended): `select_next_speaker` is a deterministic function of the
orchestrator state, log snapshot, active set and oracle stub answers — the
injected random source is consulted only by the game-start pick (empty
recent window) and the mediator pick (a detected ping-pong); whenever the
recent window is non-empty and no ping-pong is detected, the result is
independent of the random source.  Two successive calls can still differ
because the first call mutates the orchestrator state
(see `c2_counterexample`). -/
theorem c2_no_hidden_randomness (st : OrchState) (o : Oracle)
    (agents : List Agent) (hist : List Msg) (eliminated : List String)
    (r₁ r₂ : Nat)
    (hne : ((lastN 10 hist).filter (fun m => !m.isSystem)) ≠ [])
    (hdet : detectPingpong ((lastN 10 hist).filter (fun m => !m.isSystem))
      (activeAgents agents eliminated) = none) :
    selectNextSpeaker st o r₁ agents hist eliminated =
      selectNextSpeaker st o r₂ agents hist eliminated := by
  unfold selectNextSpeaker
  split
  · rfl
  · cases hg : ((lastN 10 hist).filter (fun m => !m.isSystem)).getLast? with
    | none => exact absurd (List.getLast?_eq_none_iff.mp hg) hne
    | some lm =>
      exact selectAfterRecent_rng_irrelevant _ _ r₁ r₂ _ _ _ hdet

/-- Witness for `c2_no_hidden_randomness`: the C5 scenario selection is the
same under two different random seeds. -/
theorem c2_no_hidden_randomness_witness :
    selectNextSpeaker stXan stubOracle 0 agentsXY histYor [] =
      selectNextSpeaker stXan stubOracle 99 agentsXY histYor [] :=
  c2_no_hidden_randomness stXan stubOracle agentsXY histYor [] 0 99
    (by decide) (by decide)

/-! ## C5: question-queue clearing -/

/-- C5 (amended): the question-queue entry for an agent is cleared at
selection only when the agent is selected through the defense-priority rule
(rule 2) or the pending-questions rule (rule 3); a selection produced by the
forced-deflection rule (rule 0) or the mediator rule (rule 1) leaves the
queue unchanged, and the patience-overflow, loop-detection and default
rules (`stageE`) return the state — including the queue — untouched
(see `c5_counterexample` for a patience-overflow selection that keeps a
pending entry). -/
theorem c5_queue_clearing (st : OrchState) (o : Oracle) (rng : Nat)
    (active : List Agent) (recent : List Msg) (lm : Msg) (ls : String) :
    (∀ acc, findAccused o lm.content active = some acc →
      acc.name ≠ lm.agent →
      acc.name ∉ (updateQuestionQueue st o lm active).forceDeflectionFrom →
      (stageC st o active recent lm).1 = some acc ∧
      qget (stageC st o active recent lm).2.questionQueue acc.name = []) ∧
    (∀ aq, pendingQuestions st active = some aq →
      aq.name ≠ ls → aq.name ∉ st.forceDeflectionFrom →
      (stageD st o active recent ls).1 = some aq ∧
      qget (stageD st o active recent ls).2.questionQueue aq.name = []) ∧
    ((stageE st o active recent ls).2 = st) ∧
    (∀ pair m, detectPingpong recent active = some pair →
      pickMediator rng active pair = some m →
      (stageB st o rng active recent lm).1 = some m ∧
      (stageB st o rng active recent lm).2.questionQueue = st.questionQueue) ∧
    (∀ med, st.lastPingpongMediator = some med → med ≠ "" → lm.agent = med →
      (active.filter (fun a =>
        decide (a.name ≠ lm.agent) && decide (a.name ∉ st.forceDeflectionFrom))).isEmpty
        = false →
      ((selectAfterRecent st o rng active recent lm).1).isSome = true ∧
      (selectAfterRecent st o rng active recent lm).2.questionQueue = st.questionQueue) := by
  refine ⟨?_, ?_, stageE_queue st o active recent ls, ?_, ?_⟩
  · intro acc hacc hne hnin
    unfold stageC
    simp only [hacc]
    rw [if_pos (by simpa using hne), if_pos (by simpa using hnin)]
    exact ⟨by trivial, qget_clearQueue_self _ _⟩
  · intro aq haq hne hnin
    unfold stageD
    simp only [haq]
    rw [if_pos (by simp [hne, hnin])]
    exact ⟨by trivial, qget_clearQueue_self _ _⟩
  · intro pair m hdet hmed
    unfold stageB
    simp only [hdet, hmed]
    exact ⟨by trivial, by trivial⟩
  · intro med hmed hne hlm hfilter
    unfold selectAfterRecent
    simp only [hmed]
    rw [if_pos (by simp [hne, hlm]), if_neg (by rw [hfilter]; simp)]
    constructor
    · apply pickByPatience_isSome
      intro he
      rw [he] at hfilter
      simp at hfilter
    · rfl

/-- Witness for `c5_queue_clearing`: a concrete pending-questions selection
clears Xan's entry, and a concrete forced-deflection selection (mediator Cat
just spoke) selects someone while leaving the queue untouched. -/
theorem c5_queue_clearing_witness :
    ((stageD ⟨[("Xan", 0)], [("Xan", ["Zed"])], none, []⟩ stubOracle agentsXY [] "Yor").1 =
      some ⟨"Xan", "villager"⟩ ∧
    qget (stageD ⟨[("Xan", 0)], [("Xan", ["Zed"])], none, []⟩ stubOracle
      agentsXY [] "Yor").2.questionQueue "Xan" = []) ∧
    ((selectAfterRecent stMediator stubOracle 0 agentsABCD histCat
        ⟨"Cat", "zzz", false⟩).1).isSome = true ∧
    (selectAfterRecent stMediator stubOracle 0 agentsABCD histCat
        ⟨"Cat", "zzz", false⟩).2.questionQueue = stMediator.questionQueue :=
  ⟨(c5_queue_clearing ⟨[("Xan", 0)], [("Xan", ["Zed"])], none, []⟩ stubOracle 0
      agentsXY [] ⟨"Yor", "zzz", false⟩ "Yor").2.1 ⟨"Xan", "villager"⟩
      (by decide) (by decide) (by decide),
   (c5_queue_clearing stMediator stubOracle 0 agentsABCD histCat
      ⟨"Cat", "zzz", false⟩ "Cat").2.2.2.2 "Cat" (by decide) (by decide) (by decide)
      (by decide)⟩

/-! ## C3: when the selector returns none -/

theorem pickRandom_eq_none (rng : Nat) (l : List Agent)
    (h : pickRandom rng l = none) : l = [] := by
  by_cases he : l = []
  · exact he
  · have hs := pickRandom_isSome rng l he
    rw [h] at hs
    cases hs

theorem stageD_isSome_or_stageE (st : OrchState) (o : Oracle) (active : List Agent)
    (recent : List Msg) (ls : String) :
    ((stageD st o active recent ls).1).isSome = true ∨
    stageD st o active recent ls = stageE st o active recent ls := by
  unfold stageD
  split
  · split
    · exact Or.inl rfl
    · exact Or.inr rfl
  · exact Or.inr rfl

theorem stageC_isSome_or_stageE (st : OrchState) (o : Oracle) (active : List Agent)
    (recent : List Msg) (lm : Msg) :
    ((stageC st o active recent lm).1).isSome = true ∨
    ∃ st', stageC st o active recent lm = stageE st' o active recent lm.agent := by
  unfold stageC
  split
  · split
    · split
      · exact Or.inl rfl
      · rcases stageD_isSome_or_stageE (updateQuestionQueue st o lm active) o active recent
          lm.agent with h | h
        · exact Or.inl h
        · exact Or.inr ⟨_, h⟩
    · rcases stageD_isSome_or_stageE (updateQuestionQueue st o lm active) o active recent
        lm.agent with h | h
      · exact Or.inl h
      · exact Or.inr ⟨_, h⟩
  · rcases stageD_isSome_or_stageE (updateQuestionQueue st o lm active) o active recent
      lm.agent with h | h
    · exact Or.inl h
    · exact Or.inr ⟨_, h⟩

theorem stageB_isSome_or_stageE (st : OrchState) (o : Oracle) (rng : Nat)
    (active : List Agent) (recent : List Msg) (lm : Msg) :
    ((stageB st o rng active recent lm).1).isSome = true ∨
    ∃ st', stageB st o rng active recent lm = stageE st' o active recent lm.agent := by
  unfold stageB
  split
  · split
    · exact Or.inl rfl
    · exact stageC_isSome_or_stageE st o active recent lm
  · exact stageC_isSome_or_stageE st o active recent lm

theorem select_isSome_or_stageE (st : OrchState) (o : Oracle) (rng : Nat)
    (active : List Agent) (recent : List Msg) (lm : Msg) :
    ((selectAfterRecent st o rng active recent lm).1).isSome = true ∨
    ∃ st', selectAfterRecent st o rng active recent lm = stageE st' o active recent lm.agent := by
  unfold selectAfterRecent
  split
  · split
    · split
      · exact stageB_isSome_or_stageE st o rng active recent lm
      · rename_i hne
        left
        apply pickByPatience_isSome
        intro he
        rw [he] at hne
        simp at hne
    · exact stageB_isSome_or_stageE st o rng active recent lm
  · exact stageB_isSome_or_stageE st o rng active recent lm

theorem stageE_isSome (st : OrchState) (o : Oracle) (active : List Agent)
    (recent : List Msg) (ls : String) (a₀ : Agent) (ha₀ : a₀ ∈ active)
    (hn₀ : a₀.name ≠ ls) :
    ((stageE st o active recent ls).1).isSome = true := by
  have hav : active.filter (fun a => decide (a.name ≠ ls)) ≠ [] := by
    intro hemp
    have hm : a₀ ∈ active.filter (fun a => decide (a.name ≠ ls)) :=
      List.mem_filter.mpr ⟨ha₀, by simpa using hn₀⟩
    rw [hemp] at hm
    cases hm
  unfold stageE
  split
  · rfl
  · split
    · split
      · rename_i hq
        apply pickByPatience_isSome
        intro he
        rw [he] at hq
        simp at hq
      · exact pickByPatience_isSome _ _ hav
    · exact pickByPatience_isSome _ _ hav

theorem stageE_none_filter (st : OrchState) (o : Oracle) (active : List Agent)
    (recent : List Msg) (ls : String)
    (h : (stageE st o active recent ls).1 = none) :
    active.filter (fun a => decide (a.name ≠ ls)) = [] := by
  by_cases he : active.filter (fun a => decide (a.name ≠ ls)) = []
  · exact he
  · exfalso
    obtain ⟨a₀, ha₀⟩ := List.exists_mem_of_ne_nil _ he
    have hmem := List.mem_filter.mp ha₀
    have hs := stageE_isSome st o active recent ls a₀ hmem.1 (by simpa using hmem.2)
    rw [h] at hs
    cases hs

theorem stageE_none (st : OrchState) (o : Oracle) (active : List Agent)
    (recent : List Msg) (ls : String)
    (himp : findImpatient st.agentPatience active = none)
    (hav : active.filter (fun a => decide (a.name ≠ ls)) = []) :
    (stageE st o active recent ls).1 = none := by
  unfold stageE
  rw [himp, hav]
  split
  · rename_i imp heq
    cases heq
  · split
    · split
      · rename_i hq
        simp [quietAgents] at hq
      · rfl
    · rfl

theorem stageD_none (st : OrchState) (o : Oracle) (active : List Agent)
    (recent : List Msg) (ls : String)
    (H : ∀ a ∈ active, a.name = ls)
    (himp : findImpatient st.agentPatience active = none)
    (hav : active.filter (fun a => decide (a.name ≠ ls)) = []) :
    (stageD st o active recent ls).1 = none := by
  unfold stageD
  split
  · rename_i aq haq
    have hn : aq.name = ls := H aq (pendingQuestions_mem _ _ _ haq)
    rw [if_neg (by simp [hn])]
    exact stageE_none st o active recent ls himp hav
  · exact stageE_none st o active recent ls himp hav

theorem stageC_none (st : OrchState) (o : Oracle) (active : List Agent)
    (recent : List Msg) (lm : Msg)
    (H : ∀ a ∈ active, a.name = lm.agent)
    (himp : findImpatient st.agentPatience active = none)
    (hav : active.filter (fun a => decide (a.name ≠ lm.agent)) = []) :
    (stageC st o active recent lm).1 = none := by
  have himp' : findImpatient (updateQuestionQueue st o lm active).agentPatience active = none := by
    rw [updateQuestionQueue_patience]
    exact himp
  unfold stageC
  split
  · rename_i acc hacc
    have hn : acc.name = lm.agent := H acc (findAccused_mem _ _ _ _ hacc)
    rw [if_neg (by simp [hn])]
    exact stageD_none _ o active recent lm.agent H himp' hav
  · exact stageD_none _ o active recent lm.agent H himp' hav

theorem stageB_none (st : OrchState) (o : Oracle) (rng : Nat) (active : List Agent)
    (recent : List Msg) (lm : Msg)
    (H : ∀ a ∈ active, a.name = lm.agent)
    (himp : findImpatient st.agentPatience active = none)
    (hav : active.filter (fun a => decide (a.name ≠ lm.agent)) = [])
    (hlast : recent.getLast? = some lm) :
    (stageB st o rng active recent lm).1 = none := by
  unfold stageB
  split
  · rename_i pair hdet
    obtain ⟨hpair, hlen⟩ := detectPingpong_some recent active pair hdet
    have hrne : recent ≠ [] := by
      intro he
      rw [he] at hlast
      cases hlast
    have hall : ∀ x ∈ active, x ∈ pair := by
      intro x hx
      rw [hpair]
      apply List.mem_filter.mpr
      refine ⟨hx, ?_⟩
      rw [decide_eq_true_eq, mem_uniqueList, H x hx]
      apply List.mem_map_of_mem
      apply mem_of_getLast?_eq_some
      rw [lastN_getLast? 4 recent (by omega) hrne]
      exact hlast
    have hmed : pickMediator rng active pair = none := by
      unfold pickMediator
      have hf : active.filter (fun a => decide (a ∉ pair)) = [] :=
        List.filter_eq_nil_iff.mpr (fun a ha => by simpa using hall a ha)
      rw [hf]
      rfl
    rw [hmed]
    exact stageC_none st o active recent lm H himp hav
  · exact stageC_none st o active recent lm H himp hav

theorem selectAfterRecent_none (st : OrchState) (o : Oracle) (rng : Nat)
    (active : List Agent) (recent : List Msg) (lm : Msg)
    (H : ∀ a ∈ active, a.name = lm.agent)
    (himp : findImpatient st.agentPatience active = none)
    (hlast : recent.getLast? = some lm) :
    (selectAfterRecent st o rng active recent lm).1 = none := by
  have hav : active.filter (fun a => decide (a.name ≠ lm.agent)) = [] :=
    List.filter_eq_nil_iff.mpr (fun a ha => by simpa using H a ha)
  have hav0 : active.filter (fun a =>
      decide (a.name ≠ lm.agent) && decide (a.name ∉ st.forceDeflectionFrom)) = [] :=
    List.filter_eq_nil_iff.mpr (fun a ha => by simp [H a ha])
  unfold selectAfterRecent
  split
  · split
    · split
      · exact stageB_none st o rng active recent lm H himp hav hlast
      · rename_i hne
        rw [hav0] at hne
        simp at hne
    · exact stageB_none st o rng active recent lm H himp hav hlast
  · exact stageB_none st o rng active recent lm H himp hav hlast

/-- The last message of the non-system-filtered 10-message window is the
last non-system message of the whole history. -/
theorem window_getLast (hist : List Msg) (lm : Msg)
    (h : ((lastN 10 hist).filter (fun m => !m.isSystem)).getLast? = some lm) :
    (hist.filter (fun m => !m.isSystem)).getLast? = some lm := by
  have hne : (lastN 10 hist).filter (fun m => !m.isSystem) ≠ [] := by
    intro he
    rw [he] at h
    cases h
  have hne' : (List.drop (hist.length - 10) hist).filter (fun m => !m.isSystem) ≠ [] := hne
  conv_lhs => rw [← List.take_append_drop (hist.length - 10) hist]
  rw [List.filter_append, getLast?_append_right _ _ hne']
  exact h

/-- C3 (amended): `select_next_speaker` returns none exactly when either no
active agents remain, or the recent window is non-empty and every active
agent is the last non-system speaker (in particular when the only active
agent spoke last, see `c3_counterexample`); with any active agent other
than the last speaker available — or an empty recent window — it returns
exactly one agent. -/
theorem c3_none_iff (st : OrchState) (o : Oracle) (rng : Nat)
    (agents : List Agent) (hist : List Msg) (eliminated : List String) :
    (selectNextSpeaker st o rng agents hist eliminated).1 = none ↔
    (activeAgents agents eliminated = [] ∨
      ∃ lm, ((lastN 10 hist).filter (fun m => !m.isSystem)).getLast? = some lm ∧
        ∀ a ∈ activeAgents agents eliminated, a.name = lm.agent) := by
  constructor
  · intro h
    unfold selectNextSpeaker at h
    split at h
    · rename_i hemp
      exact Or.inl (List.isEmpty_iff.mp hemp)
    · rename_i hemp
      cases hg : ((lastN 10 hist).filter (fun m => !m.isSystem)).getLast? with
      | none =>
        rw [hg] at h
        have hp : pickRandom rng (activeAgents agents eliminated) = none := h
        exact Or.inl (pickRandom_eq_none rng _ hp)
      | some lm =>
        rw [hg] at h
        have h' : (selectAfterRecent
            { st with agentPatience :=
                updatePatience st.agentPatience (activeAgents agents eliminated) hist }
            o rng (activeAgents agents eliminated)
            ((lastN 10 hist).filter (fun m => !m.isSystem)) lm).1 = none := h
        right
        refine ⟨lm, rfl, ?_⟩
        rcases select_isSome_or_stageE
            { st with agentPatience :=
                updatePatience st.agentPatience (activeAgents agents eliminated) hist }
            o rng (activeAgents agents eliminated)
            ((lastN 10 hist).filter (fun m => !m.isSystem)) lm with hs | ⟨st', hst⟩
        · rw [h'] at hs
          cases hs
        · rw [hst] at h'
          have hfilter := stageE_none_filter _ _ _ _ _ h'
          intro a ha
          have hp := List.filter_eq_nil_iff.mp hfilter a ha
          simpa using hp
  · intro h
    rcases h with h | ⟨lm, hg, H⟩
    · unfold selectNextSpeaker
      rw [if_pos (by rw [h]; rfl)]
    · unfold selectNextSpeaker
      split
      · rfl
      · rw [hg]
        exact selectAfterRecent_none _ o rng _ _ lm H
          (findImpatient_update_all st.agentPatience (activeAgents agents eliminated)
            hist lm (window_getLast hist lm hg) H) hg

/-- Witness for `c3_none_iff`: the sole-active-last-speaker scenario indeed
returns none, obtained through the characterisation. -/
theorem c3_none_iff_witness :
    (selectNextSpeaker ⟨[], [], none, []⟩ stubOracle 0 [⟨"Ann", "villager"⟩]
      [⟨"Ann", "zzz", false⟩] []).1 = none :=
  (c3_none_iff ⟨[], [], none, []⟩ stubOracle 0 [⟨"Ann", "villager"⟩]
    [⟨"Ann", "zzz", false⟩] []).mpr (Or.inr ⟨⟨"Ann", "zzz", false⟩, by decide, by decide⟩)

/-! ## C4: ping-pong detection exactness -/

/-- C4 (confirmed): on a window of exactly the messages [A,B,A,B] (two
distinct speakers, alternating, both active) `_detect_pingpong` fires and
returns the pair, triggering mediation; on [A,A,B,B] (same two speakers but
with consecutive runs of length 2) it returns nothing, for any active set. -/
theorem c4_pingpong_detection (a b : String) (active : List Agent)
    (x1 x2 x3 x4 y1 y2 y3 y4 : String) (hab : a ≠ b)
    (hlen : (active.filter (fun ag => decide (ag.name ∈ ([a, b] : List String)))).length = 2) :
    (detectPingpong [⟨a, x1, false⟩, ⟨b, x2, false⟩, ⟨a, x3, false⟩, ⟨b, x4, false⟩]
        active).isSome = true ∧
    detectPingpong [⟨a, y1, false⟩, ⟨a, y2, false⟩, ⟨b, y3, false⟩, ⟨b, y4, false⟩]
        active = none := by
  have hba : b ≠ a := Ne.symm hab
  constructor
  · have hu : uniqueList [a, b, a, b] = [a, b] := by simp [uniqueList, hab]
    have hd : detectPingpong [⟨a, x1, false⟩, ⟨b, x2, false⟩, ⟨a, x3, false⟩, ⟨b, x4, false⟩]
        active = some (active.filter (fun ag => decide (ag.name ∈ ([a, b] : List String)))) := by
      unfold detectPingpong
      simp only [lastN, List.length_cons, List.length_nil, List.map_drop,
        List.map_cons, List.map_nil]
      norm_num
      rw [hu]
      simp [List.count_cons, hab, hba, maxConsecutiveSpeaker, maxConsecAux]
      simpa using hlen
    rw [hd]
    rfl
  · have hu : uniqueList [a, a, b, b] = [a, b] := by simp [uniqueList, hab]
    unfold detectPingpong
    simp only [lastN, List.length_cons, List.length_nil, List.map_drop,
      List.map_cons, List.map_nil]
    norm_num
    rw [hu]
    simp [List.count_cons, hab, hba, maxConsecutiveSpeaker, maxConsecAux]

/-- Witness for `c4_pingpong_detection` at concrete speakers Ann and Bob. -/
theorem c4_pingpong_detection_witness :
    (detectPingpong
      [⟨"Ann", "p", false⟩, ⟨"Bob", "q", false⟩, ⟨"Ann", "r", false⟩, ⟨"Bob", "s", false⟩]
      [⟨"Ann", "villager"⟩, ⟨"Bob", "villager"⟩, ⟨"Cat", "villager"⟩]).isSome = true ∧
    detectPingpong
      [⟨"Ann", "p", false⟩, ⟨"Ann", "q", false⟩, ⟨"Bob", "r", false⟩, ⟨"Bob", "s", false⟩]
      [⟨"Ann", "villager"⟩, ⟨"Bob", "villager"⟩, ⟨"Cat", "villager"⟩] = none :=
  c4_pingpong_detection "Ann" "Bob"
    [⟨"Ann", "villager"⟩, ⟨"Bob", "villager"⟩, ⟨"Cat", "villager"⟩]
    "p" "q" "r" "s" "p" "q" "r" "s" (by decide) (by decide)

/-- Two villagers and a vote stub for the C7 witness. -/
def agentsVote : List Agent := [⟨"Ann", "villager"⟩, ⟨"Bob", "villager"⟩]

/-- Every voter's extracted vote text is "Bob". -/
def voteStub : String → Option String := fun _ => some "Bob"

/-- Witness for `c7_vote_tally`: Ann cannot end up voting for Ann, and the
plurality target of the concrete round is Bob. -/
theorem winCheck_agents (gs : GameState) (elim2 : List String) :
    (winCheck gs elim2).agents = gs.agents := by
  unfold winCheck
  split_ifs <;> rfl

theorem winCheck_eliminated (gs : GameState) (elim2 : List String) :
    (winCheck gs elim2).eliminated = elim2 := by
  unfold winCheck
  split_ifs <;> rfl

theorem mafiaActive_winCheck (gs : GameState) (elim2 : List String) :
    mafiaActive (winCheck gs elim2) = winMafiaCount gs elim2 := by
  unfold mafiaActive activeAgents winMafiaCount
  rw [winCheck_agents, winCheck_eliminated]

theorem villagerActive_winCheck (gs : GameState) (elim2 : List String) :
    villagerActive (winCheck gs elim2) = winVillagerCount gs elim2 := by
  unfold villagerActive activeAgents winVillagerCount
  rw [winCheck_agents, winCheck_eliminated, mafiaActive_winCheck]

theorem winCheck_spec (gs : GameState) (elim2 : List String)
    (hw : gs.winner = none) (hr : gs.isRunning = true) :
    ((winCheck gs elim2).winner = some "villagers" ↔
      mafiaActive (winCheck gs elim2) = 0) ∧
    ((winCheck gs elim2).winner = some "mafia" ↔
      (mafiaActive (winCheck gs elim2) ≠ 0 ∧
       villagerActive (winCheck gs elim2) ≤ mafiaActive (winCheck gs elim2))) ∧
    ((winCheck gs elim2).isRunning = false ↔
      ((winCheck gs elim2).winner).isSome) := by
  rw [mafiaActive_winCheck, villagerActive_winCheck]
  unfold winCheck
  split_ifs with h1 h2
  · refine ⟨by simp [h1], ?_, by simp⟩
    simp only [Option.some.injEq]
    constructor
    · intro h; exact absurd h (by decide)
    · intro h; exact absurd h1 h.1
  · refine ⟨?_, ?_, by simp⟩
    · simp only [Option.some.injEq]
      constructor
      · intro h; exact absurd h.symm (by decide)
      · intro h; exact absurd h h1
    · simp only [Option.some.injEq]
      exact ⟨fun _ => ⟨h1, h2⟩, fun _ => trivial⟩
  · refine ⟨?_, ?_, ?_⟩
    · simp only [hw]
      constructor
      · intro h; cases h
      · intro h; exact absurd h h1
    · simp only [hw]
      constructor
      · intro h; cases h
      · intro h; exact absurd h.2 h2
    · simp only [hw, hr]
      constructor
      · intro h; cases h
      · intro h; cases h

/-- C6 (amended): the win check runs once per voting round, after both the
vote elimination and the night kill (so a night kill can eliminate a further
villager even when the vote elimination alone already produced mafia-villager
equality, see `c6_counterexample`).  At that point: villagers win exactly
when zero mafia remain active; mafia win exactly when some mafia remain and
active mafia count is at least the active villager count (the transition
fires at equality); and the game is stopped exactly when a winner was
declared. -/
theorem c6_win_check (gs : GameState) (vote : String → Option String)
    (killResponses : List (Option String)) (rng : Nat)
    (hw : gs.winner = none) (hr : gs.isRunning = true) :
    ((triggerVoting gs vote killResponses rng).winner = some "villagers" ↔
      mafiaActive (triggerVoting gs vote killResponses rng) = 0) ∧
    ((triggerVoting gs vote killResponses rng).winner = some "mafia" ↔
      (mafiaActive (triggerVoting gs vote killResponses rng) ≠ 0 ∧
       villagerActive (triggerVoting gs vote killResponses rng) ≤
         mafiaActive (triggerVoting gs vote killResponses rng))) ∧
    ((triggerVoting gs vote killResponses rng).isRunning = false ↔
      ((triggerVoting gs vote killResponses rng).winner).isSome) := by
  unfold triggerVoting
  exact winCheck_spec gs _ hw hr

/-- Witness for `c6_win_check` at the concrete boundary scenario: mafia win
is declared exactly because active mafia (2) are at least active villagers
(1) after both eliminations. -/
theorem c6_win_check_witness :
    (triggerVoting gsWin (fun _ => some "V1") [some "V2"] 0).winner = some "mafia" :=
  ((c6_win_check gsWin (fun _ => some "V1") [some "V2"] 0 rfl rfl).2.1).mpr (by decide)

theorem c7_vote_tally_witness :
    castVote (activeAgents agentsVote []) voteStub ⟨"Ann", "villager"⟩ ≠ some "Ann" ∧
    (∃ cnt l₁ l₂,
      conductVoting agentsVote [] voteStub = l₁ ++ ((("Bob" : String), cnt)) :: l₂ ∧
      (∀ q ∈ l₁, q.2 < cnt) ∧ (∀ q ∈ l₂, q.2 ≤ cnt)) := by
  exact ⟨(c7_vote_tally agentsVote [] voteStub).2.1 ⟨"Ann", "villager"⟩ (by decide),
    (c7_vote_tally agentsVote [] voteStub).2.2 "Bob" (by decide)⟩

end Mafia
